import Mathlib

/-!
Verification of the event-stream reconciliation engine and the session/task
lifecycle state machine of the `AgentTerminal` component
(`coding-agent-frontend`, file `AgentTerminal.tsx`, current revision).

The TypeScript component is shallowly embedded: React `useState`/`useRef`
cells become fields of an explicit `AppState`; the JavaScript `Map` (which
preserves insertion order, updates in place on `set` of an existing key, and
removes on `delete`) becomes the ordered association list `OMap`; `async`
handlers are split at their single `await` boundary into a `...Pending`
function (the synchronous prefix up to the request) and a `...Resume`
function (the continuation applied to the request's result, an
`Except String _`).  Presentation-only data (JSX icons, CSS) is omitted.
-/

namespace CodingAgent

/-- Payload fields of a raw stream event that the component reads
(`event.data.query`, `.response`, `.error`, `.text`, `.tool_name`,
`.arguments`, `.was_successful`, `.response_preview`).  In the source the
payload is an untyped `any`; absent string fields are modelled as `""` and
`arguments` (an arbitrary JSON value only ever displayed) as a string. -/
structure EventData where
  query : String := ""
  response : String := ""
  error : String := ""
  text : String := ""
  tool_name : String := ""
  arguments : String := ""
  was_successful : Bool := false
  response_preview : String := ""
deriving DecidableEq, Repr

/-- `interface RawEvent { type: string; timestamp: string; data: any; }` -/
structure RawEvent where
  type : String
  timestamp : String
  data : EventData
deriving DecidableEq, Repr

/-- The four display kinds of a processed event. -/
inductive DisplayType where
  | TASK_LIFECYCLE
  | ERROR
  | LLM_THOUGHT
  | TOOL_CALL
deriving DecidableEq, Repr

/-- `status: 'running' | 'completed' | 'error'` of a TOOL_CALL record. -/
inductive ToolStatus where
  | running
  | completed
  | error
deriving DecidableEq, Repr

/-- A processed (display-ready) event.  The source declares a tagged union
(`TaskLifecycleEvent | ErrorEvent | ThoughtEvent | ToolCallEvent`); JavaScript
objects being open records, we embed it as one flat structure with defaults,
so that the unchecked `as ToolCallEvent` cast performed by the reconciler on
`llm.tool_call.end` is directly representable.  The JSX `icon` field is
presentation-only and omitted. -/
structure ProcessedEvent where
  key : String
  displayType : DisplayType
  message : String := ""
  content : Option EventData := none
  text : String := ""
  status : ToolStatus := .running
  toolName : String := ""
  params : String := ""
  output : Option String := none
  error : Option String := none
  raw : RawEvent
  timestamp : String
deriving DecidableEq, Repr

/-- Ordered association map embedding a JavaScript `Map`: insertion order is
preserved, `set` on an existing key overwrites in place, `delete` removes. -/
def OMap (α : Type) : Type := List (String × α)

instance (α : Type) [DecidableEq α] : DecidableEq (OMap α) :=
  inferInstanceAs (DecidableEq (List (String × α)))

instance (α : Type) [Repr α] : Repr (OMap α) :=
  inferInstanceAs (Repr (List (String × α)))

/-- `Map.prototype.get`. -/
def OMap.get {α : Type} (m : OMap α) (k : String) : Option α :=
  match m with
  | [] => none
  | (k', v) :: rest => if k' = k then some v else OMap.get rest k

/-- `Map.prototype.has`. -/
def OMap.has {α : Type} (m : OMap α) (k : String) : Bool :=
  (m.get k).isSome

/-- `Map.prototype.set`: overwrite in place if the key exists (preserving its
position in insertion order), otherwise append. -/
def OMap.set {α : Type} (m : OMap α) (k : String) (v : α) : OMap α :=
  match m with
  | [] => [(k, v)]
  | (k', v') :: rest => if k' = k then (k, v) :: rest else (k', v') :: OMap.set rest k v

/-- `Map.prototype.delete`. -/
def OMap.del {α : Type} (m : OMap α) (k : String) : OMap α :=
  match m with
  | [] => []
  | (k', v') :: rest => if k' = k then rest else (k', v') :: OMap.del rest k

/-- `Array.from(map.values())`. -/
def OMap.values {α : Type} (m : OMap α) : List α :=
  m.map Prod.snd

/-- `String.prototype.startsWith`, expressed on character lists (the core
`String.startsWith` goes through byte-position primitives the kernel cannot
evaluate, so concrete runs could not be checked with it). -/
def strStartsWith (s pat : String) : Bool :=
  pat.data.isPrefixOf s.data

/-- `String.prototype.includes`: some suffix of `s` starts with `pat`. -/
def strIncludes (s pat : String) : Bool :=
  (List.range (s.data.length + 1)).any (fun i => pat.data.isPrefixOf (s.data.drop i))

/-- `String.prototype.trim`: strip leading and trailing whitespace. -/
def strTrim (s : String) : String :=
  ⟨((s.data.dropWhile Char.isWhitespace).reverse.dropWhile Char.isWhitespace).reverse⟩

/-- The positional key `` `event-${index}-${event.timestamp}` `` computed for
every event before the type dispatch. -/
def eventKey (index : Nat) (ts : String) : String :=
  "event-" ++ toString index ++ "-" ++ ts

/-- The correlation key `` `tool-${event.data.tool_name}-${event.timestamp}` ``
under which a `llm.tool_call.start` record is stored. -/
def toolKey (name ts : String) : String :=
  "tool-" ++ name ++ "-" ++ ts

/-- The two `useRef` maps that survive re-renders: `eventCache` (the
View-Model Cache, key → processed record) and `runningTools` (the Tool-Call
Correlator, tool name → key of its running record). -/
structure ReconState where
  cache : OMap ProcessedEvent := []
  runningTools : OMap String := []
deriving DecidableEq, Repr

/-- One iteration of the `filteredRawEvents.forEach((event, index) => ...)`
body inside the `processedEvents` `useMemo`: compute the positional key,
return unchanged if the cache already has it, otherwise dispatch on
`event.type`; creating types build and cache a record (a
`llm.tool_call.start` re-keys to `toolKey` and registers the correlator
entry), `llm.tool_call.end` mutates the correlated record in place and never
caches (`shouldCache = false`), unrecognized types do nothing. -/
def processEvent (st : ReconState) (index : Nat) (event : RawEvent) : ReconState :=
  let key := eventKey index event.timestamp
  if st.cache.has key then st
  else
    match event.type with
    | "task.start" =>
        let processed : ProcessedEvent :=
          { key := key, displayType := .TASK_LIFECYCLE,
            message := "Task started: \"" ++ event.data.query ++ "\"",
            raw := event, timestamp := event.timestamp }
        { st with cache := st.cache.set processed.key processed }
    | "task.finish" =>
        let processed : ProcessedEvent :=
          { key := key, displayType := .TASK_LIFECYCLE,
            message := "Task completed successfully: \"" ++ event.data.response ++ "\"",
            raw := event, timestamp := event.timestamp }
        { st with cache := st.cache.set processed.key processed }
    | "task.error" =>
        let processed : ProcessedEvent :=
          { key := key, displayType := .ERROR,
            message := event.data.error, content := some event.data,
            raw := event, timestamp := event.timestamp }
        { st with cache := st.cache.set processed.key processed }
    | "agent.loop.start" =>
        let processed : ProcessedEvent :=
          { key := key, displayType := .TASK_LIFECYCLE,
            message := "Agent started working on the task",
            raw := event, timestamp := event.timestamp }
        { st with cache := st.cache.set processed.key processed }
    | "llm.thought" =>
        let processed : ProcessedEvent :=
          { key := key, displayType := .LLM_THOUGHT,
            text := event.data.text,
            raw := event, timestamp := event.timestamp }
        { st with cache := st.cache.set processed.key processed }
    | "llm.tool_call.start" =>
        let key := toolKey event.data.tool_name event.timestamp
        let processed : ProcessedEvent :=
          { key := key, displayType := .TOOL_CALL, status := .running,
            toolName := event.data.tool_name, params := event.data.arguments,
            raw := event, timestamp := event.timestamp }
        { st with
          runningTools := st.runningTools.set event.data.tool_name key,
          cache := st.cache.set processed.key processed }
    | "llm.tool_call.end" =>
        match st.runningTools.get event.data.tool_name with
        | some runningToolKey =>
            if runningToolKey = "" then st
            else
              match st.cache.get runningToolKey with
              | some toolToUpdate =>
                  let updated :=
                    if event.data.was_successful then
                      { toolToUpdate with status := .completed,
                                          output := some event.data.response_preview }
                    else
                      { toolToUpdate with status := .error,
                                          error := some event.data.error }
                  { st with cache := st.cache.set runningToolKey updated,
                            runningTools := st.runningTools.del event.data.tool_name }
              | none => st
        | none => st
    | _ => st

/-- The `(event, index)`-indexed traversal of the filtered Event Store, with
`i` the index of the first event of the remaining list. -/
def processFrom (st : ReconState) (i : Nat) : List RawEvent → ReconState
  | [] => st
  | e :: rest => processFrom (processEvent st i e) (i + 1) rest

/-- `rawEvents.filter(event => !event.type.startsWith('repo.') &&
!event.type.startsWith('setup.'))`. -/
def filteredEvents (raws : List RawEvent) : List RawEvent :=
  raws.filter (fun e => !(strStartsWith e.type "repo.") && !(strStartsWith e.type "setup."))

/-- The value of the `processedEvents` `useMemo`: run the reconciler over the
filtered Event Store against the persistent cache, then list the cache's
values in insertion order. -/
def reconcile (st : ReconState) (raws : List RawEvent) : ReconState :=
  processFrom st 0 (filteredEvents raws)

/-- The ordered view-model list exposed to the renderer. -/
def processedEvents (st : ReconState) (raws : List RawEvent) : List ProcessedEvent :=
  (reconcile st raws).cache.values

/-! ## Session and task lifecycle -/

/-- `type SessionState = 'NO_SESSION' | 'CREATING_SESSION' | 'SESSION_ACTIVE'` -/
inductive SessionState where
  | NO_SESSION
  | CREATING_SESSION
  | SESSION_ACTIVE
deriving DecidableEq, Repr

/-- `interface RepoInfo { name: string; owner: string; isFork: boolean; }` -/
structure RepoInfo where
  owner : String
  name : String
  isFork : Bool
deriving DecidableEq, Repr

/-- Severity of a status toast (`'info' | 'error' | 'success'`). -/
inductive ToastType where
  | info
  | error
  | success
deriving DecidableEq, Repr

/-- A status toast, as set by `showStatus(message, type)`. -/
structure Toast where
  message : String
  ttype : ToastType
deriving DecidableEq, Repr

/-- The component state: every `useState` cell, the two `useRef` maps (as
`recon`), and whether the task's `EventSource` connection is open. -/
structure AppState where
  sessionState : SessionState := .NO_SESSION
  sessionId : Option String := none
  repoInfo : Option RepoInfo := none
  isTaskRunning : Bool := false
  repoUrl : String := ""
  selectedModel : String := "openai/gpt-4o"
  lastUsedModelId : Option String := none
  hasStartedFirstTask : Bool := false
  currentTaskId : Option String := none
  isStopping : Bool := false
  rawEvents : List RawEvent := []
  expandedEvents : List String := []
  recon : ReconState := {}
  toast : Option Toast := none
  streamOpen : Bool := false
deriving DecidableEq, Repr

/-- `showStatus(message, type)`. -/
def showStatus (st : AppState) (message : String) (ttype : ToastType) : AppState :=
  { st with toast := some { message := message, ttype := ttype } }

/-- Response shape of `POST /sessions`. -/
structure SessionResponse where
  session_id : String
  repo_owner : String
  repo_name : String
  is_fork : Bool
deriving DecidableEq, Repr

/-- Synchronous prefix of `createSession`, up to the `await fetch`: URL
validation (reject when the trimmed URL is empty or does not contain
`github.com`), transition to `CREATING_SESSION`, and the clearing of
`eventCache`, `runningTools`, `rawEvents`, `expandedEvents` and
`lastUsedModelId`. -/
def createSessionPending (st : AppState) : AppState :=
  if strTrim st.repoUrl = "" || !(strIncludes st.repoUrl "github.com") then
    showStatus st "Please enter a valid GitHub repository URL" .error
  else
    let st := { st with sessionState := .CREATING_SESSION }
    let st := showStatus st "Setting up repository environment..." .info
    { st with recon := {}, rawEvents := [], expandedEvents := [], lastUsedModelId := none }

/-- Continuation of `createSession` applied to the request's outcome: on
success store `sessionId`/`repoInfo` and go `SESSION_ACTIVE`; on failure
(network error or non-ok response, both landing in the `catch`) surface the
reason and go back to `NO_SESSION`. -/
def createSessionResume (st : AppState) (result : Except String SessionResponse) : AppState :=
  match result with
  | .ok data =>
      let st := { st with sessionId := some data.session_id,
                          repoInfo := some { owner := data.repo_owner, name := data.repo_name,
                                             isFork := data.is_fork },
                          sessionState := .SESSION_ACTIVE,
                          hasStartedFirstTask := false }
      showStatus st
        (if data.is_fork then "Repository forked and ready." else "Repository connected and ready.")
        .success
  | .error msg =>
      let st := showStatus st ("Session setup failed: " ++ msg) .error
      { st with sessionState := .NO_SESSION }

/-- `handleTaskEnd(isError)`. -/
def handleTaskEnd (isError : Bool) (st : AppState) : AppState :=
  let st := { st with isTaskRunning := false, currentTaskId := none, isStopping := false }
  if !isError then showStatus st "Task finished. Ready for next command." .success else st

/-- Synchronous prefix of `startTask`, up to the `await fetch`: read and trim
the query, return unchanged when the query is empty, there is no `sessionId`,
or a task is already running; otherwise record first-task/model bookkeeping,
clear the Tool-Call Correlator (`runningTools.clear()`) and the expanded-row
set, and mark the task running.  Note the Event Store (`rawEvents`) and the
View-Model Cache (`eventCache`) are left untouched here. -/
def startTaskPending (st : AppState) (rawQuery : String) : AppState :=
  let query := strTrim rawQuery
  if query = "" || st.sessionId.isNone || st.isTaskRunning then st
  else
    let st := { st with hasStartedFirstTask := true,
                        lastUsedModelId := some st.selectedModel,
                        recon := { st.recon with runningTools := [] },
                        expandedEvents := [],
                        isTaskRunning := true }
    showStatus st "Agent starting..." .info

/-- Continuation of `startTask`: on success store the returned `task_id` and
open the `EventSource` stream; on failure surface the reason and run
`handleTaskEnd(true)`. -/
def startTaskResume (st : AppState) (result : Except String String) : AppState :=
  match result with
  | .ok taskId => { st with currentTaskId := some taskId, streamOpen := true }
  | .error msg => handleTaskEnd true (showStatus st ("Failed to start task: " ++ msg) .error)

/-- The `eventSource.onmessage` handler: drop keepalives, append the event to
the Event Store, then side effects by type — status toasts for thoughts and
tool starts, and for `task.finish` / `task.error` close the stream and run
`handleTaskEnd`. -/
def handleStreamMessage (st : AppState) (event : RawEvent) : AppState :=
  if event.type = "stream.keepalive" then st
  else
    let st := { st with rawEvents := st.rawEvents ++ [event] }
    if event.type = "llm.thought" then showStatus st "Agent is thinking..." .info
    else if event.type = "llm.tool_call.start" then
      showStatus st ("Executing: " ++ event.data.tool_name) .info
    else if event.type = "task.finish" then
      handleTaskEnd false { st with streamOpen := false }
    else if event.type = "task.error" then
      let msg := if event.data.error = "" then "An unknown error occurred" else event.data.error
      handleTaskEnd true { showStatus st msg .error with streamOpen := false }
    else st

/-- The `eventSource.onerror` handler: surface the loss, close the stream,
`handleTaskEnd(true)`. -/
def handleStreamError (st : AppState) : AppState :=
  handleTaskEnd true { showStatus st "Stream connection lost." .error with streamOpen := false }

/-- Synchronous prefix of `stopTask`, up to the `await fetch`, paired with
whether a stop request was actually issued: return unchanged (no request)
when there is no `currentTaskId` or a stop is already in progress; otherwise
set `isStopping` and issue the request. -/
def stopTaskPending (st : AppState) : AppState × Bool :=
  if st.currentTaskId.isNone || st.isStopping then (st, false)
  else (showStatus { st with isStopping := true } "Sending stop signal..." .info, true)

/-- Continuation of `stopTask`: on success only a toast (termination still
comes from the stream); on failure surface the reason and revert
`isStopping`. -/
def stopTaskResume (st : AppState) (result : Except String Unit) : AppState :=
  match result with
  | .ok _ => showStatus st "Stop signal accepted. Waiting for agent to terminate." .success
  | .error msg =>
      { showStatus st ("Stop request failed: " ++ msg) .error with isStopping := false }

/-- The task run is idle: not running, not stopping, no current task id. -/
def isIdle (st : AppState) : Prop :=
  st.isTaskRunning = false ∧ st.isStopping = false ∧ st.currentTaskId = none

instance (st : AppState) : Decidable (isIdle st) := by
  unfold isIdle; infer_instance


/-- Value of a decimal digit string, used to invert `Nat.toDigits`. -/
def digitsVal (cs : List Char) : Nat :=
  cs.foldl (fun acc c => 10 * acc + (c.toNat - 48)) 0

/-- The two event types handled by the Tool-Call Correlator. -/
def isToolEvent (e : RawEvent) : Prop :=
  e.type = "llm.tool_call.start" ∨ e.type = "llm.tool_call.end"

instance (e : RawEvent) : Decidable (isToolEvent e) := by
  unfold isToolEvent; infer_instance

/-- The TOOL_CALL records of the view-model list, in order. -/
def toolRecords (st : ReconState) : List ProcessedEvent :=
  st.cache.values.filter (fun r => r.displayType == .TOOL_CALL)

/-- Every key of the cache is either a positional key of an index below `i`
or a tool key — the shape invariant of any reconciliation run. -/
def cacheShaped (i : Nat) (c : OMap ProcessedEvent) : Prop :=
  ∀ k, c.has k = true →
    (∃ j t, j < i ∧ k = eventKey j t) ∨ (∃ n t, k = toolKey n t)


/-- The six creating event types: each produces a new display record. -/
def creatingTypes : List String :=
  ["task.start", "task.finish", "task.error", "agent.loop.start", "llm.thought",
   "llm.tool_call.start"]

/-- An event of a creating type. -/
def isCreatingEvent (e : RawEvent) : Prop :=
  e.type ∈ creatingTypes

instance (e : RawEvent) : Decidable (isCreatingEvent e) := by
  unfold isCreatingEvent; infer_instance

/-- The key under which the record of a creating event at position `i` of the
filtered Event Store is cached: `llm.tool_call.start` records use the tool
key, every other creating type the positional key. -/
def derivedKey (i : Nat) (e : RawEvent) : String :=
  if e.type = "llm.tool_call.start" then toolKey e.data.tool_name e.timestamp
  else eventKey i e.timestamp

/-- Every cache entry's record carries its own key — invariant of any run. -/
def keyConsistent (c : OMap ProcessedEvent) : Prop :=
  ∀ k r, c.get k = some r → r.key = k

/-- Two `llm.tool_call.start` events for the same tool name at the same
timestamp (with different arguments): their derived keys collide. -/
def dupStart1 : RawEvent :=
  { type := "llm.tool_call.start", timestamp := "T7",
    data := { tool_name := "run_tests", arguments := "all" } }

/-- See `dupStart1`. -/
def dupStart2 : RawEvent :=
  { type := "llm.tool_call.start", timestamp := "T7",
    data := { tool_name := "run_tests", arguments := "unit" } }

/-! ## Concrete fixtures used by counterexamples and witnesses -/

/-- A `llm.tool_call.start` for `write_file` at timestamp `T1`. -/
def wfStart : RawEvent :=
  { type := "llm.tool_call.start", timestamp := "T1",
    data := { tool_name := "write_file", arguments := "path=a.txt" } }

/-- A failed `llm.tool_call.end` for `write_file`. -/
def wfEndFail : RawEvent :=
  { type := "llm.tool_call.end", timestamp := "T2",
    data := { tool_name := "write_file", was_successful := false, error := "disk full" } }

/-- A successful `llm.tool_call.end` for `write_file`. -/
def wfEndOk : RawEvent :=
  { type := "llm.tool_call.end", timestamp := "T3",
    data := { tool_name := "write_file", was_successful := true, response_preview := "wrote 3 lines" } }

/-- A `task.start` raw event used by replay-guard statements. -/
def c2TaskStart : RawEvent :=
  { type := "task.start", timestamp := "T0", data := { query := "fix the bug" } }

/-- A `task.finish` raw event. -/
def finishEv : RawEvent :=
  { type := "task.finish", timestamp := "T9", data := { response := "done" } }

/-- A `task.error` raw event. -/
def errorEv : RawEvent :=
  { type := "task.error", timestamp := "T9", data := { error := "agent crashed" } }

/-- A state with a task currently running and a known task id. -/
def runningState : AppState :=
  { sessionState := .SESSION_ACTIVE, sessionId := some "s1",
    isTaskRunning := true, currentTaskId := some "t1", streamOpen := true,
    rawEvents := [c2TaskStart], recon := reconcile {} [c2TaskStart] }

/-- A fresh state holding a valid GitHub repository URL. -/
def freshState : AppState :=
  { repoUrl := "https://github.com/e2b-dev/coding-agent" }

/-- A `llm.thought` raw event. -/
def thoughtEv : RawEvent :=
  { type := "llm.thought", timestamp := "T2a", data := { text := "I should write the file" } }

/-- A session-active state carrying one record from a previous task run,
used to exhibit that `startTask` does not clear the Event Store or the
View-Model Cache. -/
def staleState : AppState :=
  { sessionState := .SESSION_ACTIVE, sessionId := some "s1",
    rawEvents := [c2TaskStart],
    recon := reconcile {} [c2TaskStart] }

/-! ## Ordered-map lemmas -/

theorem OMap.get_set_self {α : Type} (m : OMap α) (k : String) (v : α) :
    (m.set k v).get k = some v := by
  induction m with
  | nil => simp [OMap.set, OMap.get]
  | cons hd tl ih =>
      obtain ⟨k', v'⟩ := hd
      by_cases h : k' = k <;> simp [OMap.set, OMap.get, h, ih]

theorem OMap.get_set_ne {α : Type} (m : OMap α) (k k' : String) (v : α) (h : k' ≠ k) :
    (m.set k v).get k' = m.get k' := by
  induction m with
  | nil => simp [OMap.set, OMap.get, Ne.symm h]
  | cons hd tl ih =>
      obtain ⟨k₀, v₀⟩ := hd
      by_cases h₀ : k₀ = k
      · subst h₀
        simp [OMap.set, OMap.get, Ne.symm h]
      · simp only [OMap.set, if_neg h₀, OMap.get]
        by_cases h₁ : k₀ = k' <;> simp [h₁, ih]

theorem OMap.get_eq_none_of_not_mem {α : Type} (m : OMap α) (k : String)
    (h : k ∉ m.map Prod.fst) : m.get k = none := by
  induction m with
  | nil => simp [OMap.get]
  | cons hd tl ih =>
      obtain ⟨k₀, v₀⟩ := hd
      simp only [List.map_cons, List.mem_cons, not_or] at h
      simp [OMap.get, Ne.symm h.1, ih h.2]

theorem OMap.get_del_self {α : Type} (m : OMap α) (k : String)
    (hnodup : (m.map Prod.fst).Nodup) : (m.del k).get k = none := by
  induction m with
  | nil => simp [OMap.del, OMap.get]
  | cons hd tl ih =>
      obtain ⟨k₀, v₀⟩ := hd
      simp only [List.map_cons, List.nodup_cons] at hnodup
      by_cases h₀ : k₀ = k
      · subst h₀
        simp only [OMap.del, if_pos rfl]
        exact OMap.get_eq_none_of_not_mem tl k₀ hnodup.1
      · simp [OMap.del, if_neg h₀, OMap.get, h₀, ih hnodup.2]

theorem OMap.get_del_ne {α : Type} (m : OMap α) (k k' : String) (h : k' ≠ k) :
    (m.del k).get k' = m.get k' := by
  induction m with
  | nil => simp [OMap.del, OMap.get]
  | cons hd tl ih =>
      obtain ⟨k₀, v₀⟩ := hd
      by_cases h₀ : k₀ = k
      · subst h₀
        simp [OMap.del, OMap.get, Ne.symm h]
      · simp only [OMap.del, if_neg h₀, OMap.get]
        by_cases h₁ : k₀ = k' <;> simp [h₁, ih]

theorem OMap.values_set_fresh {α : Type} (m : OMap α) (k : String) (v : α)
    (h : m.get k = none) : (m.set k v).values = m.values ++ [v] := by
  induction m with
  | nil => simp [OMap.set, OMap.values]
  | cons hd tl ih =>
      obtain ⟨k₀, v₀⟩ := hd
      simp only [OMap.get] at h
      by_cases h₀ : k₀ = k
      · simp [h₀] at h
      · simp only [OMap.set, if_neg h₀, OMap.values, List.map_cons]
        simp only [if_neg h₀] at h
        simpa [OMap.values] using ih h

/-! ## Decimal representation, key disequality, and reconciler-run lemmas -/

theorem toDigitsCore_acc (fuel n : Nat) (ds : List Char) :
    Nat.toDigitsCore 10 fuel n ds = Nat.toDigitsCore 10 fuel n [] ++ ds := by
  induction fuel generalizing n ds with
  | zero => simp [Nat.toDigitsCore]
  | succ f ih =>
      simp only [Nat.toDigitsCore]
      by_cases h : n / 10 = 0
      · simp [h]
      · simp only [if_neg h]
        rw [ih (n / 10) (Nat.digitChar (n % 10) :: ds), ih (n / 10) [Nat.digitChar (n % 10)]]
        simp

theorem toDigitsCore_fuel (f1 f2 n : Nat) (ds : List Char) (h1 : n < f1) (h2 : n < f2) :
    Nat.toDigitsCore 10 f1 n ds = Nat.toDigitsCore 10 f2 n ds := by
  induction f1 generalizing f2 n ds with
  | zero => omega
  | succ f ih =>
      cases f2 with
      | zero => omega
      | succ g =>
          simp only [Nat.toDigitsCore]
          by_cases h : n / 10 = 0
          · simp [h]
          · simp only [if_neg h]
            have hn : 1 ≤ n := by
              by_contra hc
              push_neg at hc
              interval_cases n
              · simp at h
            have hd : n / 10 < n := Nat.div_lt_self hn (by norm_num)
            exact ih g (n / 10) _ (by omega) (by omega)

theorem toDigits_lt10 (n : Nat) (h : n < 10) : Nat.toDigits 10 n = [Nat.digitChar n] := by
  unfold Nat.toDigits
  simp [Nat.toDigitsCore, Nat.div_eq_of_lt h, Nat.mod_eq_of_lt h]

theorem toDigits_ge10 (n : Nat) (h : 10 ≤ n) :
    Nat.toDigits 10 n = Nat.toDigits 10 (n / 10) ++ [Nat.digitChar (n % 10)] := by
  have hne : n / 10 ≠ 0 := Nat.ne_of_gt (Nat.div_pos h (by norm_num))
  conv_lhs => rw [Nat.toDigits]
  simp only [Nat.toDigitsCore, if_neg hne]
  rw [toDigitsCore_acc]
  unfold Nat.toDigits
  congr 1
  exact toDigitsCore_fuel n (n / 10 + 1) (n / 10) []
    (Nat.div_lt_self (by omega) (by norm_num)) (Nat.lt_succ_self _)


theorem digitsVal_append_one (xs : List Char) (c : Char) :
    digitsVal (xs ++ [c]) = 10 * digitsVal xs + (c.toNat - 48) := by
  simp [digitsVal, List.foldl_append]

theorem digitChar_val (m : Nat) (h : m < 10) : (Nat.digitChar m).toNat - 48 = m := by
  interval_cases m <;> decide

theorem digitsVal_toDigits (n : Nat) : digitsVal (Nat.toDigits 10 n) = n := by
  induction n using Nat.strong_induction_on with
  | _ n ih =>
      by_cases h : n < 10
      · rw [toDigits_lt10 n h]
        have := digitChar_val n h
        simp [digitsVal]
        omega
      · push_neg at h
        rw [toDigits_ge10 n h, digitsVal_append_one]
        rw [ih (n / 10) (Nat.div_lt_self (by omega) (by norm_num))]
        have := digitChar_val (n % 10) (Nat.mod_lt _ (by norm_num))
        omega

theorem toDigits_inj (m n : Nat) (h : Nat.toDigits 10 m = Nat.toDigits 10 n) : m = n := by
  rw [← digitsVal_toDigits m, h, digitsVal_toDigits]

theorem digitChar_ne_dash (m : Nat) (h : m < 10) : Nat.digitChar m ≠ '-' := by
  interval_cases m <;> decide

theorem toDigits_no_dash (n : Nat) : '-' ∉ Nat.toDigits 10 n := by
  induction n using Nat.strong_induction_on with
  | _ n ih =>
      by_cases h : n < 10
      · rw [toDigits_lt10 n h]
        simp [Ne.symm (digitChar_ne_dash n h)]
      · push_neg at h
        rw [toDigits_ge10 n h]
        simp only [List.mem_append, List.mem_singleton, not_or]
        exact ⟨ih (n / 10) (Nat.div_lt_self (by omega) (by norm_num)),
               Ne.symm (digitChar_ne_dash (n % 10) (Nat.mod_lt _ (by norm_num)))⟩

theorem repr_data (n : Nat) : (Nat.repr n).data = Nat.toDigits 10 n := rfl

theorem toString_nat_eq (n : Nat) : (toString n : String) = Nat.repr n := rfl

theorem data_append (s t : String) : (s ++ t).data = s.data ++ t.data := rfl

example : ("event-" : String).data = ['e','v','e','n','t','-'] := rfl

theorem split_at_dash (xs : List Char) (ys as bs : List Char) (hx : '-' ∉ xs) (hy : '-' ∉ ys)
    (h : xs ++ '-' :: as = ys ++ '-' :: bs) : xs = ys ∧ as = bs := by
  induction xs generalizing ys with
  | nil =>
      cases ys with
      | nil => simpa using h
      | cons y ys =>
          simp only [List.nil_append, List.cons_append, List.cons.injEq] at h
          rw [← h.1] at hy
          simp at hy
  | cons x xs ih =>
      cases ys with
      | nil =>
          simp only [List.nil_append, List.cons_append, List.cons.injEq] at h
          rw [h.1] at hx
          simp at hx
      | cons y ys =>
          simp only [List.cons_append, List.cons.injEq] at h
          simp only [List.mem_cons, not_or] at hx hy
          obtain ⟨h1, h2⟩ := ih ys hx.2 hy.2 h.2
          exact ⟨by rw [h.1, h1], h2⟩

theorem event_dash_data : ("event-" : String).data = ['e', 'v', 'e', 'n', 't', '-'] := rfl

theorem tool_dash_data : ("tool-" : String).data = ['t', 'o', 'o', 'l', '-'] := rfl

theorem dash_data : ("-" : String).data = ['-'] := rfl

theorem eventKey_inj (i j : Nat) (a b : String) (h : eventKey i a = eventKey j b) :
    i = j ∧ a = b := by
  have hd := congrArg String.data h
  simp only [eventKey, data_append, toString_nat_eq, repr_data, event_dash_data, dash_data,
    List.append_assoc, List.cons_append, List.nil_append, List.cons.injEq, true_and] at hd
  obtain ⟨h1, h2⟩ := split_at_dash _ _ _ _ (toDigits_no_dash i) (toDigits_no_dash j) hd
  refine ⟨toDigits_inj i j h1, ?_⟩
  cases a
  cases b
  exact congrArg String.mk h2

theorem eventKey_ne_toolKey (i : Nat) (a n t : String) : eventKey i a ≠ toolKey n t := by
  intro h
  have hd := congrArg String.data h
  simp only [eventKey, toolKey, data_append, event_dash_data, tool_dash_data, dash_data,
    List.append_assoc, List.cons_append, List.nil_append, List.cons.injEq] at hd
  exact absurd hd.1 (by decide)

theorem toolKey_ne_empty (n t : String) : toolKey n t ≠ "" := by
  intro h
  have hd := congrArg String.data h
  simp only [toolKey, data_append, tool_dash_data, List.cons_append] at hd
  simp at hd


theorem OMap.get_set {α : Type} (m : OMap α) (k k' : String) (v : α) :
    (m.set k v).get k' = if k' = k then some v else m.get k' := by
  by_cases h : k' = k
  · subst h; simp [OMap.get_set_self]
  · simp [h, OMap.get_set_ne _ _ _ _ h]

theorem OMap.get_none_of_has_false {α : Type} (m : OMap α) (k : String)
    (h : ¬ m.has k = true) : m.get k = none := by
  unfold OMap.has at h
  exact Option.not_isSome_iff_eq_none.mp (by simpa using h)

theorem processEvent_nonTool_runningTools (st : ReconState) (i : Nat) (e : RawEvent)
    (hnt : ¬ isToolEvent e) :
    (processEvent st i e).runningTools = st.runningTools := by
  unfold processEvent
  dsimp only
  split
  · rfl
  · split <;> first
      | (rename_i heq; exact absurd (Or.inl heq) hnt)
      | (rename_i heq; exact absurd (Or.inr heq) hnt)
      | rfl

theorem processEvent_nonTool_cache_get (st : ReconState) (i : Nat) (e : RawEvent)
    (hnt : ¬ isToolEvent e) (k : String) (hk : ∀ ts, k ≠ eventKey i ts) :
    (processEvent st i e).cache.get k = st.cache.get k := by
  unfold processEvent
  dsimp only
  split
  · rfl
  · split <;> first
      | (rename_i heq; exact absurd (Or.inl heq) hnt)
      | (rename_i heq; exact absurd (Or.inr heq) hnt)
      | rfl
      | exact OMap.get_set_ne _ _ _ _ (hk _)

theorem processEvent_nonTool_toolRecords (st : ReconState) (i : Nat) (e : RawEvent)
    (hnt : ¬ isToolEvent e) :
    toolRecords (processEvent st i e) = toolRecords st := by
  unfold processEvent
  dsimp only
  split
  · rfl
  · rename_i hguard
    split <;> first
      | (rename_i heq; exact absurd (Or.inl heq) hnt)
      | (rename_i heq; exact absurd (Or.inr heq) hnt)
      | rfl
      | (unfold toolRecords
         rw [OMap.values_set_fresh _ _ _ (OMap.get_none_of_has_false _ _ hguard)]
         simp [List.filter_append])

theorem cacheShaped_mono (i i' : Nat) (c : OMap ProcessedEvent) (hle : i ≤ i')
    (h : cacheShaped i c) : cacheShaped i' c := fun k hk =>
  (h k hk).imp (fun ⟨j, t, hj, he⟩ => ⟨j, t, by omega, he⟩) id

theorem cacheShaped_set_event (i : Nat) (c : OMap ProcessedEvent) (ts : String)
    (P : ProcessedEvent) (h : cacheShaped i c) :
    cacheShaped (i + 1) (c.set (eventKey i ts) P) := by
  intro k hk
  unfold OMap.has at hk
  rw [OMap.get_set] at hk
  by_cases hke : k = eventKey i ts
  · exact Or.inl ⟨i, ts, Nat.lt_succ_self i, hke⟩
  · rw [if_neg hke] at hk
    exact (h k hk).imp (fun ⟨j, t, hj, he⟩ => ⟨j, t, by omega, he⟩) id

theorem cacheShaped_set_tool (i : Nat) (c : OMap ProcessedEvent) (n t : String)
    (P : ProcessedEvent) (h : cacheShaped i c) :
    cacheShaped (i + 1) (c.set (toolKey n t) P) := by
  intro k hk
  unfold OMap.has at hk
  rw [OMap.get_set] at hk
  by_cases hke : k = toolKey n t
  · exact Or.inr ⟨n, t, hke⟩
  · rw [if_neg hke] at hk
    exact (h k hk).imp (fun ⟨j, t', hj, he⟩ => ⟨j, t', by omega, he⟩) id

theorem cacheShaped_set_existing (i : Nat) (c : OMap ProcessedEvent) (k₀ : String)
    (v v' : ProcessedEvent) (hget : c.get k₀ = some v) (h : cacheShaped i c) :
    cacheShaped (i + 1) (c.set k₀ v') := by
  intro k hk
  unfold OMap.has at hk
  rw [OMap.get_set] at hk
  by_cases hke : k = k₀
  · subst hke
    have : c.has k = true := by unfold OMap.has; rw [hget]; rfl
    exact (h k this).imp (fun ⟨j, t, hj, he⟩ => ⟨j, t, by omega, he⟩) id
  · rw [if_neg hke] at hk
    exact (h k hk).imp (fun ⟨j, t, hj, he⟩ => ⟨j, t, by omega, he⟩) id

theorem processEvent_cacheShaped (st : ReconState) (i : Nat) (e : RawEvent)
    (h : cacheShaped i st.cache) : cacheShaped (i + 1) (processEvent st i e).cache := by
  unfold processEvent
  dsimp only
  split
  · exact cacheShaped_mono i (i + 1) _ (Nat.le_succ i) h
  · split <;> first
      | exact cacheShaped_set_event i st.cache _ _ h
      | exact cacheShaped_set_tool i st.cache _ _ _ h
      | exact cacheShaped_mono i (i + 1) _ (Nat.le_succ i) h
      | (split
         · split
           · exact cacheShaped_mono i (i + 1) _ (Nat.le_succ i) h
           · split
             · rename_i hget
               exact cacheShaped_set_existing i st.cache _ _ _ hget h
             · exact cacheShaped_mono i (i + 1) _ (Nat.le_succ i) h
         · exact cacheShaped_mono i (i + 1) _ (Nat.le_succ i) h)

theorem processFrom_append (st : ReconState) (i : Nat) (xs ys : List RawEvent) :
    processFrom st i (xs ++ ys) = processFrom (processFrom st i xs) (i + xs.length) ys := by
  induction xs generalizing st i with
  | nil => simp [processFrom]
  | cons x xs ih =>
      simp only [List.cons_append, processFrom, List.length_cons, List.append_eq]
      have harith : i + 1 + xs.length = i + (xs.length + 1) := by omega
      rw [ih, harith]

theorem processFrom_nonTool_runningTools (evs : List RawEvent) (st : ReconState) (i : Nat)
    (h : ∀ e ∈ evs, ¬ isToolEvent e) :
    (processFrom st i evs).runningTools = st.runningTools := by
  induction evs generalizing st i with
  | nil => rfl
  | cons e evs ih =>
      simp only [processFrom]
      rw [ih _ _ (fun e' he' => h e' (List.mem_cons_of_mem e he')),
          processEvent_nonTool_runningTools st i e (h e (List.mem_cons_self e evs))]

theorem processFrom_nonTool_cache_get (evs : List RawEvent) (st : ReconState) (i : Nat)
    (h : ∀ e ∈ evs, ¬ isToolEvent e) (k : String) (hk : ∀ j ts, k ≠ eventKey j ts) :
    (processFrom st i evs).cache.get k = st.cache.get k := by
  induction evs generalizing st i with
  | nil => rfl
  | cons e evs ih =>
      simp only [processFrom]
      rw [ih _ _ (fun e' he' => h e' (List.mem_cons_of_mem e he')),
          processEvent_nonTool_cache_get st i e (h e (List.mem_cons_self e evs)) k (fun ts => hk i ts)]

theorem processFrom_nonTool_toolRecords (evs : List RawEvent) (st : ReconState) (i : Nat)
    (h : ∀ e ∈ evs, ¬ isToolEvent e) :
    toolRecords (processFrom st i evs) = toolRecords st := by
  induction evs generalizing st i with
  | nil => rfl
  | cons e evs ih =>
      simp only [processFrom]
      rw [ih _ _ (fun e' he' => h e' (List.mem_cons_of_mem e he')),
          processEvent_nonTool_toolRecords st i e (h e (List.mem_cons_self e evs))]

theorem processFrom_cacheShaped (evs : List RawEvent) (st : ReconState) (i : Nat)
    (h : cacheShaped i st.cache) :
    cacheShaped (i + evs.length) (processFrom st i evs).cache := by
  induction evs generalizing st i with
  | nil => simpa using h
  | cons e evs ih =>
      simp only [processFrom, List.length_cons]
      have := ih (processEvent st i e) (i + 1) (processEvent_cacheShaped st i e h)
      have harith : i + 1 + evs.length = i + (evs.length + 1) := by omega
      rwa [harith] at this

theorem cacheShaped_empty (i : Nat) : cacheShaped i ([] : OMap ProcessedEvent) := by
  intro k hk
  simp [OMap.has, OMap.get] at hk

theorem cacheShaped_has_eventKey_false (i : Nat) (c : OMap ProcessedEvent)
    (h : cacheShaped i c) (ts : String) : c.has (eventKey i ts) = false := by
  cases hhas : c.has (eventKey i ts) with
  | false => rfl
  | true =>
      rcases h _ hhas with ⟨j, t, hj, he⟩ | ⟨n, t, he⟩
      · obtain ⟨hij, -⟩ := eventKey_inj i j ts t he
        omega
      · exact absurd he (eventKey_ne_toolKey i ts n t)

theorem processEvent_toolStart (st : ReconState) (i : Nat) (e : RawEvent)
    (htype : e.type = "llm.tool_call.start")
    (hguard : st.cache.has (eventKey i e.timestamp) = false) :
    processEvent st i e =
      { cache := st.cache.set (toolKey e.data.tool_name e.timestamp)
          { key := toolKey e.data.tool_name e.timestamp, displayType := .TOOL_CALL,
            status := .running, toolName := e.data.tool_name, params := e.data.arguments,
            raw := e, timestamp := e.timestamp },
        runningTools := st.runningTools.set e.data.tool_name
          (toolKey e.data.tool_name e.timestamp) } := by
  unfold processEvent
  rw [htype]
  simp [hguard]

theorem processEvent_toolEnd_ok (st : ReconState) (i : Nat) (e : RawEvent) (k : String)
    (r : ProcessedEvent)
    (htype : e.type = "llm.tool_call.end")
    (hok : e.data.was_successful = true)
    (hguard : st.cache.has (eventKey i e.timestamp) = false)
    (hcorr : st.runningTools.get e.data.tool_name = some k)
    (hk : k ≠ "")
    (hget : st.cache.get k = some r) :
    processEvent st i e =
      { cache := st.cache.set k
          { r with status := .completed, output := some e.data.response_preview },
        runningTools := st.runningTools.del e.data.tool_name } := by
  unfold processEvent
  rw [htype]
  simp [hguard, hcorr, hk, hget, hok]

theorem OMap.get_mem_values {α : Type} (m : OMap α) (k : String) (v : α)
    (h : m.get k = some v) : v ∈ m.values := by
  induction m with
  | nil => simp [OMap.get] at h
  | cons hd tl ih =>
      obtain ⟨k₀, v₀⟩ := hd
      by_cases hk₀ : k₀ = k
      · subst hk₀
        have hv : v₀ = v := by simpa [OMap.get] using h
        simp [OMap.values, hv]
      · simp only [OMap.get, if_neg hk₀] at h
        simp only [OMap.values, List.map_cons, List.mem_cons]
        exact Or.inr (by simpa [OMap.values] using ih h)

theorem filterVals_set_replace (c : OMap ProcessedEvent) (k : String) (r r' : ProcessedEvent)
    (hget : c.get k = some r)
    (hfil : c.values.filter (fun x => x.displayType == DisplayType.TOOL_CALL) = [r])
    (hr' : (r'.displayType == DisplayType.TOOL_CALL) = true) :
    (c.set k r').values.filter (fun x => x.displayType == DisplayType.TOOL_CALL) = [r'] := by
  have hr : (r.displayType == DisplayType.TOOL_CALL) = true := by
    have : r ∈ c.values.filter (fun x => x.displayType == DisplayType.TOOL_CALL) := by
      rw [hfil]; exact List.mem_singleton_self r
    exact (List.mem_filter.mp this).2
  induction c with
  | nil => simp [OMap.get] at hget
  | cons hd tl ih =>
      obtain ⟨k₀, v₀⟩ := hd
      by_cases hk₀ : k₀ = k
      · subst hk₀
        have hv : v₀ = r := by simpa [OMap.get] using hget
        subst hv
        simp only [OMap.values, List.map_cons, List.filter_cons, hr, if_true] at hfil
        simp only [List.cons.injEq, true_and] at hfil
        simp only [OMap.set, OMap.values, List.map_cons, List.filter_cons, hr', if_true, hfil]
      · simp only [OMap.get, if_neg hk₀] at hget
        simp only [OMap.values, List.map_cons, List.filter_cons] at hfil
        by_cases hv₀ : (v₀.displayType == DisplayType.TOOL_CALL) = true
        · rw [if_pos hv₀] at hfil
          simp only [List.cons.injEq] at hfil
          exfalso
          have hmem : r ∈ OMap.values tl := OMap.get_mem_values tl k r hget
          have : r ∈ (OMap.values tl).filter (fun x => x.displayType == DisplayType.TOOL_CALL) :=
            List.mem_filter.mpr ⟨hmem, hr⟩
          rw [show OMap.values tl = List.map Prod.snd tl from rfl, hfil.2] at this
          simp at this
        · rw [if_neg hv₀] at hfil
          simp only [OMap.set, if_neg hk₀, OMap.values, List.map_cons, List.filter_cons,
            if_neg hv₀]
          exact ih hget hfil

theorem toolRecords_set_fresh (st : ReconState) (k : String) (P : ProcessedEvent)
    (rt' : OMap String) (hfresh : st.cache.get k = none)
    (hP : (P.displayType == DisplayType.TOOL_CALL) = true) :
    toolRecords { cache := st.cache.set k P, runningTools := rt' } = toolRecords st ++ [P] := by
  unfold toolRecords
  rw [show ({ cache := st.cache.set k P, runningTools := rt' } : ReconState).cache
        = st.cache.set k P from rfl,
      OMap.values_set_fresh _ _ _ hfresh]
  simp [List.filter_append, hP]

theorem tool_pairing (pre mid post : List RawEvent) (startEv endEv : RawEvent)
    (hs1 : startEv.type = "llm.tool_call.start")
    (he1 : endEv.type = "llm.tool_call.end")
    (he2 : endEv.data.tool_name = startEv.data.tool_name)
    (he3 : endEv.data.was_successful = true)
    (hpre : ∀ e ∈ pre, ¬ isToolEvent e)
    (hmid : ∀ e ∈ mid, ¬ isToolEvent e)
    (hpost : ∀ e ∈ post, ¬ isToolEvent e) :
    (processedEvents {} (pre ++ startEv :: mid ++ endEv :: post)).filter
        (fun r => r.displayType == DisplayType.TOOL_CALL)
      = [{ key := toolKey startEv.data.tool_name startEv.timestamp,
           displayType := .TOOL_CALL, status := .completed,
           toolName := startEv.data.tool_name, params := startEv.data.arguments,
           output := some endEv.data.response_preview,
           raw := startEv, timestamp := startEv.timestamp }] := by
  have hfs : (!(strStartsWith startEv.type "repo.") && !(strStartsWith startEv.type "setup."))
      = true := by rw [hs1]; decide
  have hfe : (!(strStartsWith endEv.type "repo.") && !(strStartsWith endEv.type "setup."))
      = true := by rw [he1]; decide
  have hdecomp : filteredEvents (pre ++ startEv :: mid ++ endEv :: post)
      = filteredEvents pre
          ++ startEv :: (filteredEvents mid ++ endEv :: filteredEvents post) := by
    unfold filteredEvents
    simp only [List.filter_append, List.filter_cons, hfs, hfe, if_true]
    simp [List.append_assoc]
  have hpre' : ∀ e ∈ filteredEvents pre, ¬ isToolEvent e :=
    fun e he => hpre e (List.mem_of_mem_filter he)
  have hmid' : ∀ e ∈ filteredEvents mid, ¬ isToolEvent e :=
    fun e he => hmid e (List.mem_of_mem_filter he)
  have hpost' : ∀ e ∈ filteredEvents post, ¬ isToolEvent e :=
    fun e he => hpost e (List.mem_of_mem_filter he)
  set w := startEv.data.tool_name with hw
  set K := toolKey w startEv.timestamp with hK
  set R0 : ProcessedEvent :=
    { key := K, displayType := .TOOL_CALL, status := .running, toolName := w,
      params := startEv.data.arguments, raw := startEv,
      timestamp := startEv.timestamp } with hR0
  set R1 : ProcessedEvent :=
    { key := K, displayType := .TOOL_CALL, status := .completed, toolName := w,
      params := startEv.data.arguments, output := some endEv.data.response_preview,
      raw := startEv, timestamp := startEv.timestamp } with hR1
  have hKne : ∀ (j : Nat) (ts : String), K ≠ eventKey j ts :=
    fun j ts => Ne.symm (eventKey_ne_toolKey j ts w startEv.timestamp)
  -- phase A: the non-tool prefix
  set st1 := processFrom {} 0 (filteredEvents pre) with hst1
  set i1 := (filteredEvents pre).length with hi1
  have hrt1 : st1.runningTools = [] := processFrom_nonTool_runningTools _ _ _ hpre'
  have hgetK1 : st1.cache.get K = none := by
    rw [processFrom_nonTool_cache_get _ _ _ hpre' K hKne]
    rfl
  have htr1 : toolRecords st1 = [] := by
    rw [processFrom_nonTool_toolRecords _ _ _ hpre']
    rfl
  have hshape1 : cacheShaped i1 st1.cache := by
    have := processFrom_cacheShaped (filteredEvents pre) {} 0 (cacheShaped_empty 0)
    simpa using this
  -- the start event
  have hguard1 : st1.cache.has (eventKey i1 startEv.timestamp) = false :=
    cacheShaped_has_eventKey_false _ _ hshape1 _
  set st2 := processEvent st1 i1 startEv with hst2
  have hstep1 : st2 =
      { cache := st1.cache.set K R0, runningTools := st1.runningTools.set w K } := by
    rw [hst2]
    exact processEvent_toolStart st1 i1 startEv hs1 hguard1
  have hrt2 : st2.runningTools = [(w, K)] := by
    rw [hstep1]
    rw [show ({ cache := st1.cache.set K R0,
                runningTools := st1.runningTools.set w K } : ReconState).runningTools
          = st1.runningTools.set w K from rfl, hrt1]
    rfl
  have hget2 : st2.cache.get K = some R0 := by
    rw [hstep1]
    exact OMap.get_set_self _ _ _
  have htr2 : toolRecords st2 = [R0] := by
    rw [hstep1, toolRecords_set_fresh st1 K R0 _ hgetK1 (by rw [hR0]; rfl), htr1]
    rfl
  have hshape2 : cacheShaped (i1 + 1) st2.cache := by
    rw [hst2]
    exact processEvent_cacheShaped st1 i1 startEv hshape1
  -- phase B: the non-tool middle
  set st3 := processFrom st2 (i1 + 1) (filteredEvents mid) with hst3
  set i2 := i1 + 1 + (filteredEvents mid).length with hi2
  have hrt3 : st3.runningTools = [(w, K)] := by
    rw [hst3, processFrom_nonTool_runningTools _ _ _ hmid', hrt2]
  have hget3 : st3.cache.get K = some R0 := by
    rw [hst3, processFrom_nonTool_cache_get _ _ _ hmid' K hKne, hget2]
  have htr3 : toolRecords st3 = [R0] := by
    rw [hst3, processFrom_nonTool_toolRecords _ _ _ hmid', htr2]
  have hshape3 : cacheShaped i2 st3.cache := by
    rw [hst3, hi2]
    exact processFrom_cacheShaped _ _ _ hshape2
  -- the end event
  have hguard2 : st3.cache.has (eventKey i2 endEv.timestamp) = false :=
    cacheShaped_has_eventKey_false _ _ hshape3 _
  have hcorr : st3.runningTools.get endEv.data.tool_name = some K := by
    rw [he2, hrt3]
    simp [OMap.get]
  set st4 := processEvent st3 i2 endEv with hst4
  have hstep2 : st4 =
      { cache := st3.cache.set K
          { R0 with status := .completed, output := some endEv.data.response_preview },
        runningTools := st3.runningTools.del endEv.data.tool_name } := by
    rw [hst4]
    exact processEvent_toolEnd_ok st3 i2 endEv K R0 he1 he3 hguard2 hcorr
      (toolKey_ne_empty w startEv.timestamp) hget3
  have htr4 : toolRecords st4 = [R1] := by
    rw [hstep2]
    have := filterVals_set_replace st3.cache K R0 R1 hget3 htr3 (by rw [hR1]; rfl)
    exact this
  -- phase C: the non-tool suffix
  have htr5 : toolRecords (processFrom st4 (i2 + 1) (filteredEvents post)) = [R1] := by
    rw [processFrom_nonTool_toolRecords _ _ _ hpost', htr4]
  -- assemble
  show toolRecords (reconcile {} (pre ++ startEv :: mid ++ endEv :: post)) = [R1]
  unfold reconcile
  rw [hdecomp, processFrom_append {} 0 (filteredEvents pre)
        (startEv :: (filteredEvents mid ++ endEv :: filteredEvents post))]
  simp only [Nat.zero_add, processFrom]
  rw [← hst1, ← hi1, ← hst2,
      processFrom_append st2 (i1 + 1) (filteredEvents mid) (endEv :: filteredEvents post)]
  simp only [processFrom]
  rw [← hst3, ← hi2, ← hst4]
  exact htr5

/-! ## Creating-event key lemmas -/





theorem OMap.has_set_self {α : Type} (m : OMap α) (k : String) (v : α) :
    (m.set k v).has k = true := by
  unfold OMap.has
  rw [OMap.get_set_self]
  rfl

theorem OMap.has_set_of_has {α : Type} (m : OMap α) (k k' : String) (v : α)
    (h : m.has k = true) : (m.set k' v).has k = true := by
  unfold OMap.has at h ⊢
  rw [OMap.get_set]
  by_cases hk : k = k'
  · simp [hk]
  · simpa [hk] using h

theorem processEvent_has_mono (st : ReconState) (i : Nat) (e : RawEvent) (k : String)
    (h : st.cache.has k = true) : (processEvent st i e).cache.has k = true := by
  unfold processEvent
  dsimp only
  split
  · exact h
  · split <;> first
      | exact h
      | exact OMap.has_set_of_has _ _ _ _ h
      | (split
         · split
           · exact h
           · split
             · exact OMap.has_set_of_has _ _ _ _ h
             · exact h
         · exact h)

theorem processFrom_has_mono (evs : List RawEvent) (st : ReconState) (i : Nat) (k : String)
    (h : st.cache.has k = true) : (processFrom st i evs).cache.has k = true := by
  induction evs generalizing st i with
  | nil => exact h
  | cons e evs ih => exact ih _ _ (processEvent_has_mono st i e k h)

theorem keyConsistent_get (c : OMap ProcessedEvent) (k : String) (v : ProcessedEvent)
    (hkc : keyConsistent c) (hget : c.get k = some v) : v.key = k :=
  hkc k v hget

theorem keyConsistent_set (c : OMap ProcessedEvent) (k : String) (v : ProcessedEvent)
    (hkc : keyConsistent c) (hv : v.key = k) : keyConsistent (c.set k v) := by
  intro k' r' hget
  rw [OMap.get_set] at hget
  by_cases hk : k' = k
  · rw [if_pos hk] at hget
    obtain rfl : v = r' := by simpa using hget
    rw [hv, hk]
  · rw [if_neg hk] at hget
    exact hkc k' r' hget

theorem keyConsistent_empty : keyConsistent ([] : OMap ProcessedEvent) := by
  intro k r hget
  simp [OMap.get] at hget

theorem processEvent_keyConsistent (st : ReconState) (i : Nat) (e : RawEvent)
    (h : keyConsistent st.cache) : keyConsistent (processEvent st i e).cache := by
  unfold processEvent
  dsimp only
  split
  · exact h
  · split <;> first
      | exact h
      | exact keyConsistent_set _ _ _ h rfl
      | (split
         · split
           · exact h
           · split
             · rename_i hget
               exact keyConsistent_set _ _ _ h
                 (by
                   have := keyConsistent_get _ _ _ h hget
                   split <;> simpa using this)
             · exact h
         · exact h)

theorem processFrom_keyConsistent (evs : List RawEvent) (st : ReconState) (i : Nat)
    (h : keyConsistent st.cache) : keyConsistent (processFrom st i evs).cache := by
  induction evs generalizing st i with
  | nil => exact h
  | cons e evs ih => exact ih _ _ (processEvent_keyConsistent st i e h)

theorem exists_value_of_has (c : OMap ProcessedEvent) (k : String)
    (hkc : keyConsistent c) (h : c.has k = true) : ∃ r ∈ c.values, r.key = k := by
  unfold OMap.has at h
  cases hget : c.get k with
  | none => rw [hget] at h; simp at h
  | some r =>
      exact ⟨r, OMap.get_mem_values c k r hget, keyConsistent_get c k r hkc hget⟩

theorem processEvent_creating_has (st : ReconState) (i : Nat) (e : RawEvent)
    (hshape : cacheShaped i st.cache) (hc : isCreatingEvent e) :
    (processEvent st i e).cache.has (derivedKey i e) = true := by
  have hc' : e.type = "task.start" ∨ e.type = "task.finish" ∨ e.type = "task.error"
      ∨ e.type = "agent.loop.start" ∨ e.type = "llm.thought"
      ∨ e.type = "llm.tool_call.start" := by
    simpa [isCreatingEvent, creatingTypes] using hc
  have hguard : st.cache.has (eventKey i e.timestamp) = false :=
    cacheShaped_has_eventKey_false _ _ hshape _
  unfold processEvent
  dsimp only
  simp only [hguard, Bool.false_eq_true, if_false]
  split <;> first
    | (rename_i heq
       simp only [derivedKey, heq]
       simp only [String.reduceEq, if_false, if_true]
       exact OMap.has_set_self _ _ _)
    | (rcases hc' with h | h | h | h | h | h <;> exact absurd h (by assumption))
    | (rename_i heq
       rcases hc' with h | h | h | h | h | h <;> rw [h] at heq <;> simp at heq)

theorem record_appears (raws : List RawEvent) (i : Nat) (e : RawEvent)
    (h : (filteredEvents raws)[i]? = some e) (hc : isCreatingEvent e) :
    ∃ r ∈ processedEvents {} raws, r.key = derivedKey i e := by
  obtain ⟨hlt, hget⟩ := List.getElem?_eq_some.mp h
  set evs := filteredEvents raws with hevs
  have hsplit : evs = evs.take i ++ e :: evs.drop (i + 1) := by
    conv_lhs => rw [← List.take_append_drop i evs]
    rw [List.drop_eq_getElem_cons hlt, hget]
  have hlen : (evs.take i).length = i := by
    rw [List.length_take]
    omega
  show ∃ r ∈ (processFrom {} 0 evs).cache.values, r.key = derivedKey i e
  rw [hsplit, processFrom_append, Nat.zero_add, hlen]
  simp only [processFrom]
  have hshape : cacheShaped i (processFrom {} 0 (evs.take i)).cache := by
    have := processFrom_cacheShaped (evs.take i) {} 0 (cacheShaped_empty 0)
    rwa [Nat.zero_add, hlen] at this
  have hhas1 : (processEvent (processFrom {} 0 (evs.take i)) i e).cache.has (derivedKey i e)
      = true := processEvent_creating_has _ i e hshape hc
  have hhas : (processFrom (processEvent (processFrom {} 0 (evs.take i)) i e) (i + 1)
      (evs.drop (i + 1))).cache.has (derivedKey i e) = true :=
    processFrom_has_mono _ _ _ _ hhas1
  have hkc : keyConsistent (processFrom (processEvent (processFrom {} 0 (evs.take i)) i e)
      (i + 1) (evs.drop (i + 1))).cache := by
    apply processFrom_keyConsistent
    apply processEvent_keyConsistent
    apply processFrom_keyConsistent
    exact keyConsistent_empty
  exact exists_value_of_has _ _ hkc hhas

theorem derivedKey_distinct (i j : Nat) (e1 e2 : RawEvent) (hij : i ≠ j)
    (hnb : ¬ (e1.type = "llm.tool_call.start" ∧ e2.type = "llm.tool_call.start")) :
    derivedKey i e1 ≠ derivedKey j e2 := by
  unfold derivedKey
  by_cases h1 : e1.type = "llm.tool_call.start" <;>
    by_cases h2 : e2.type = "llm.tool_call.start"
  · exact absurd ⟨h1, h2⟩ hnb
  · rw [if_pos h1, if_neg h2]
    exact Ne.symm (eventKey_ne_toolKey _ _ _ _)
  · rw [if_neg h1, if_pos h2]
    exact eventKey_ne_toolKey _ _ _ _
  · rw [if_neg h1, if_neg h2]
    intro h
    exact hij (eventKey_inj i j _ _ h).1


/-! ## Claim C5 -/

/-- Claim C5, amended: two distinct positions of the filtered Event Store
holding creating events derive distinct cache keys — and both corresponding
records appear in the output list — except when both events are
`llm.tool_call.start`: a tool start is keyed by `(toolName, timestamp)`, not
by its position, so two starts sharing tool name and timestamp collide and
only the later one's record survives (see the counterexample). -/
theorem distinct_creating_events_distinct_keys (raws : List RawEvent) (i j : Nat)
    (e1 e2 : RawEvent)
    (hij : i ≠ j)
    (h1 : (filteredEvents raws)[i]? = some e1)
    (h2 : (filteredEvents raws)[j]? = some e2)
    (hc1 : isCreatingEvent e1) (hc2 : isCreatingEvent e2)
    (hnb : ¬ (e1.type = "llm.tool_call.start" ∧ e2.type = "llm.tool_call.start")) :
    derivedKey i e1 ≠ derivedKey j e2
      ∧ ∃ r1 ∈ processedEvents {} raws, ∃ r2 ∈ processedEvents {} raws,
          r1.key = derivedKey i e1 ∧ r2.key = derivedKey j e2 ∧ r1 ≠ r2 := by
  have hne := derivedKey_distinct i j e1 e2 hij hnb
  obtain ⟨r1, hr1m, hr1k⟩ := record_appears raws i e1 h1 hc1
  obtain ⟨r2, hr2m, hr2k⟩ := record_appears raws j e2 h2 hc2
  refine ⟨hne, r1, hr1m, r2, hr2m, hr1k, hr2k, ?_⟩
  intro hr
  apply hne
  rw [← hr1k, ← hr2k, hr]

/-- Witness for C5 (amended): a `task.start` at position 0 and a
`write_file` start at position 1 get distinct keys and both records appear. -/
theorem distinct_creating_events_distinct_keys_witness :
    derivedKey 0 c2TaskStart ≠ derivedKey 1 wfStart
      ∧ ∃ r1 ∈ processedEvents {} [c2TaskStart, wfStart],
          ∃ r2 ∈ processedEvents {} [c2TaskStart, wfStart],
            r1.key = derivedKey 0 c2TaskStart ∧ r2.key = derivedKey 1 wfStart ∧ r1 ≠ r2 :=
  distinct_creating_events_distinct_keys [c2TaskStart, wfStart] 0 1 c2TaskStart wfStart
    (by decide) (by decide) (by decide) (by decide) (by decide) (by decide)

/-- Counterexample to C5 as stated: two distinct `llm.tool_call.start`
events, both creating a new display record, sharing tool name and timestamp:
their derived keys coincide (tool keys ignore the Event Store position), the
second overwrites the first, and only one record appears in the output list
instead of two. -/
theorem tool_start_keys_can_collide :
    dupStart1 ≠ dupStart2
      ∧ isCreatingEvent dupStart1 ∧ isCreatingEvent dupStart2
      ∧ (filteredEvents [dupStart1, dupStart2])[0]? = some dupStart1
      ∧ (filteredEvents [dupStart1, dupStart2])[1]? = some dupStart2
      ∧ derivedKey 0 dupStart1 = derivedKey 1 dupStart2
      ∧ (processedEvents {} [dupStart1, dupStart2]).length = 1 := by
  decide

/-! ## Claim C1 -/

/-- Witness for C1 (amended): a concrete run `task.start`, `write_file`
start, a thought, the successful `write_file` end, `task.finish` yields
exactly one TOOL_CALL record, completed, with the end event's
response preview as output. -/
theorem tool_pairing_witness :
    (processedEvents {} ([c2TaskStart] ++ wfStart :: [thoughtEv] ++ wfEndOk :: [finishEv])).filter
        (fun r => r.displayType == DisplayType.TOOL_CALL)
      = [{ key := toolKey "write_file" "T1", displayType := .TOOL_CALL,
           status := .completed, toolName := "write_file", params := "path=a.txt",
           output := some "wrote 3 lines", raw := wfStart, timestamp := "T1" }] :=
  tool_pairing [c2TaskStart] [thoughtEv] [finishEv] wfStart wfEndOk
    rfl rfl rfl rfl (by decide) (by decide) (by decide)

/-- Counterexample to C1 as stated: the sequence
`[start write_file, failed end write_file, successful end write_file]`
contains a `llm.tool_call.start` followed later by a `llm.tool_call.end` for
the same tool with `was_successful = true`, yet reconciling it yields no
completed TOOL_CALL record at all: the single record for that call has
status `error` (set by the intervening failed end, which also consumed the
correlator entry) and no output. -/
theorem tool_pairing_counterexample :
    wfStart.type = "llm.tool_call.start"
      ∧ wfEndOk.type = "llm.tool_call.end"
      ∧ wfEndOk.data.tool_name = wfStart.data.tool_name
      ∧ wfEndOk.data.was_successful = true
      ∧ (¬ ∃ r ∈ processedEvents {} [wfStart, wfEndFail, wfEndOk],
            r.displayType = DisplayType.TOOL_CALL ∧ r.status = ToolStatus.completed)
      ∧ (processedEvents {} [wfStart, wfEndFail, wfEndOk]).filter
          (fun r => r.displayType == DisplayType.TOOL_CALL)
        = [{ key := toolKey "write_file" "T1", displayType := .TOOL_CALL,
             status := .error, toolName := "write_file", params := "path=a.txt",
             error := some "disk full", raw := wfStart, timestamp := "T1" }] := by
  decide

/-! ## Claim C4 -/

/-- Claim C4: reconciling a `llm.tool_call.end` event whose tool name has no
matching entry in the Tool-Call Correlator is a no-op: the whole
reconciliation state (View-Model Cache, its ordered value list, correlator)
is unchanged, no record is created, and the step is total (no error). -/
theorem toolCallEnd_orphan_noop (st : ReconState) (i : Nat) (e : RawEvent)
    (htype : e.type = "llm.tool_call.end")
    (hmiss : st.runningTools.get e.data.tool_name = none) :
    processEvent st i e = st := by
  unfold processEvent
  rw [htype]
  simp [hmiss]

/-- Witness for C4: a concrete orphan `end` (empty correlator) is a no-op. -/
theorem toolCallEnd_orphan_noop_witness :
    processEvent { cache := [], runningTools := [] } 0 wfEndOk
      = { cache := [], runningTools := [] } :=
  toolCallEnd_orphan_noop { cache := [], runningTools := [] } 0 wfEndOk rfl rfl

/-! ## Claim C9 -/

/-- Claim C9: a `llm.tool_call.end` with `was_successful = false` whose tool
name correlates (via the Tool-Call Correlator) to a running record in the
cache mutates that record's status to `error` and sets its `error` field from
the event's error data, leaves `output` unset, and removes the correlator
entry for that tool name. -/
theorem toolCallEnd_failure_marks_error (st : ReconState) (i : Nat) (e : RawEvent)
    (k : String) (r : ProcessedEvent)
    (htype : e.type = "llm.tool_call.end")
    (hfail : e.data.was_successful = false)
    (hcorr : st.runningTools.get e.data.tool_name = some k)
    (hk : k ≠ "")
    (hrec : st.cache.get k = some r)
    (hrun : r.status = .running)
    (hout : r.output = none)
    (hguard : st.cache.has (eventKey i e.timestamp) = false)
    (hnodup : (st.runningTools.map Prod.fst).Nodup) :
    (processEvent st i e).cache.get k
        = some { r with status := .error, error := some e.data.error }
      ∧ ({ r with status := .error, error := some e.data.error } : ProcessedEvent).output = none
      ∧ (processEvent st i e).runningTools.get e.data.tool_name = none := by
  unfold processEvent
  rw [htype]
  simp only [hguard, Bool.false_eq_true, if_false, hcorr, hrec, hfail]
  refine ⟨?_, hout, ?_⟩
  · simp [hk, OMap.get_set_self]
  · simp [hk, OMap.get_del_self _ _ hnodup]

/-- Witness for C9: after a concrete `write_file` start, the failed end marks
the record `error` with the event's error string, no output, and clears the
correlator entry. -/
theorem toolCallEnd_failure_marks_error_witness :
    (processEvent (reconcile {} [wfStart]) 1 wfEndFail).cache.get (toolKey "write_file" "T1")
        = some { key := toolKey "write_file" "T1", displayType := .TOOL_CALL,
                 status := .error, toolName := "write_file", params := "path=a.txt",
                 error := some "disk full", raw := wfStart, timestamp := "T1" }
      ∧ (processEvent (reconcile {} [wfStart]) 1 wfEndFail).runningTools.get "write_file" = none := by
  have h := toolCallEnd_failure_marks_error (reconcile {} [wfStart]) 1 wfEndFail
    (toolKey "write_file" "T1")
    { key := toolKey "write_file" "T1", displayType := .TOOL_CALL,
      status := .running, toolName := "write_file", params := "path=a.txt",
      raw := wfStart, timestamp := "T1" }
    rfl rfl (by decide) (by decide) (by decide) rfl rfl (by decide) (by decide)
  exact ⟨h.1, h.2.2⟩

/-! ## Claim C2 -/

/-- Claim C2, amended: for the creating event types whose record is stored
under the positional key — `task.start`, `task.finish`, `task.error`,
`agent.loop.start`, `llm.thought` — reconciling an event whose computed key
is already in the View-Model Cache is a skip: the whole state, in particular
the cache entry for that key, is unchanged.  (For `llm.tool_call.start` the
replay guard checks the positional key while the record is stored under the
tool key, so the guard does not protect it; see the counterexample.) -/
theorem replay_guard_skips (st : ReconState) (i : Nat) (e : RawEvent)
    (htype : e.type ∈ (["task.start", "task.finish", "task.error",
                        "agent.loop.start", "llm.thought"] : List String))
    (hhit : st.cache.has (eventKey i e.timestamp) = true) :
    processEvent st i e = st := by
  unfold processEvent
  simp [hhit]

/-- Witness for C2 (amended): replaying a concrete `task.start` already in
the cache leaves the state unchanged. -/
theorem replay_guard_skips_witness :
    processEvent (reconcile {} [c2TaskStart]) 0 c2TaskStart = reconcile {} [c2TaskStart] :=
  replay_guard_skips (reconcile {} [c2TaskStart]) 0 c2TaskStart (by decide) (by decide)

/-- Counterexample to C2 as stated: after reconciling a `write_file`
start/end pair, the start event's computed key (`tool-write_file-T1`) is
present in the View-Model Cache, yet re-reconciling that same start event is
not skipped — it replaces the cache entry for that key (resetting the
completed record to a fresh running one), so the already-exposed record is
not kept. -/
theorem replay_guard_fails_for_tool_start :
    (reconcile {} [wfStart, wfEndOk]).cache.has (toolKey "write_file" "T1") = true
      ∧ (processEvent (reconcile {} [wfStart, wfEndOk]) 0 wfStart).cache.get
            (toolKey "write_file" "T1")
          ≠ (reconcile {} [wfStart, wfEndOk]).cache.get (toolKey "write_file" "T1") := by
  decide

/-! ## Claim C3 -/

/-- Claim C3, amended: a `startTask` invocation that passes its preconditions
(active session id, non-empty trimmed query, no task already running) clears
the Tool-Call Correlator exactly once before the first event of the new run,
but leaves the Event Store (`rawEvents`) and the View-Model Cache
(`eventCache`) untouched — those are cleared only by `createSession`, so
records from a previous run of the same session remain. -/
theorem startTask_clears_only_correlator (st : AppState) (q sid tid : String)
    (hq : strTrim q ≠ "") (hsid : st.sessionId = some sid)
    (hrun : st.isTaskRunning = false) :
    ((startTaskResume (startTaskPending st q) (.ok tid)).recon.runningTools = []
        ∧ (startTaskResume (startTaskPending st q) (.ok tid)).recon.cache = st.recon.cache
        ∧ (startTaskResume (startTaskPending st q) (.ok tid)).rawEvents = st.rawEvents)
      ∧ (startTaskResume (startTaskPending st q) (.ok tid)).isTaskRunning = true
      ∧ (startTaskResume (startTaskPending st q) (.ok tid)).currentTaskId = some tid := by
  simp [startTaskPending, startTaskResume, showStatus, hq, hsid, hrun]

/-- Counterexample to C3 as stated: from a concrete state satisfying all of
`startTask`'s preconditions but still holding a record of a previous run,
the state reached after `startTask` succeeds (and before any event of the
new run is processed) still has that record in the View-Model Cache and the
old event in the Event Store — they were not cleared. -/
theorem startTask_does_not_clear_cache :
    strTrim "add tests" ≠ ""
      ∧ staleState.sessionId = some "s1"
      ∧ staleState.isTaskRunning = false
      ∧ staleState.recon.cache ≠ []
      ∧ (startTaskResume (startTaskPending staleState "add tests") (.ok "t2")).recon.cache
          = staleState.recon.cache
      ∧ (startTaskResume (startTaskPending staleState "add tests") (.ok "t2")).rawEvents
          = [c2TaskStart] := by
  decide

/-- Witness for C3 (amended): the amended theorem applied at the same
concrete stale state. -/
theorem startTask_clears_only_correlator_witness :
    ((startTaskResume (startTaskPending staleState "add tests") (.ok "t2")).recon.runningTools = []
        ∧ (startTaskResume (startTaskPending staleState "add tests") (.ok "t2")).recon.cache
            = staleState.recon.cache
        ∧ (startTaskResume (startTaskPending staleState "add tests") (.ok "t2")).rawEvents
            = staleState.rawEvents)
      ∧ (startTaskResume (startTaskPending staleState "add tests") (.ok "t2")).isTaskRunning = true
      ∧ (startTaskResume (startTaskPending staleState "add tests") (.ok "t2")).currentTaskId
          = some "t2" :=
  startTask_clears_only_correlator staleState "add tests" "s1" "t2" (by decide) (by decide) (by decide)

/-! ## Claim C6 -/

/-- Claim C6: from any state in which a task run is live (running or
stopping), a `task.finish` event, a `task.error` event, and a
transport-level stream error each close the stream connection and leave the
run idle (not running, not stopping, no current task id). -/
theorem terminal_events_reach_idle (st : AppState) (e1 e2 : RawEvent)
    (hlive : st.isTaskRunning = true ∨ st.isStopping = true)
    (h1 : e1.type = "task.finish") (h2 : e2.type = "task.error") :
    (isIdle (handleStreamMessage st e1) ∧ (handleStreamMessage st e1).streamOpen = false)
      ∧ (isIdle (handleStreamMessage st e2) ∧ (handleStreamMessage st e2).streamOpen = false)
      ∧ (isIdle (handleStreamError st) ∧ (handleStreamError st).streamOpen = false) := by
  refine ⟨⟨?_, ?_⟩, ⟨?_, ?_⟩, ?_, ?_⟩ <;>
    simp [handleStreamMessage, h1, h2, handleStreamError, handleTaskEnd, showStatus, isIdle]

/-- Witness for C6: concrete running state, concrete terminal events. -/
theorem terminal_events_reach_idle_witness :
    (isIdle (handleStreamMessage { isTaskRunning := true, currentTaskId := some "t1",
                                   streamOpen := true } finishEv)
        ∧ (handleStreamMessage { isTaskRunning := true, currentTaskId := some "t1",
                                 streamOpen := true } finishEv).streamOpen = false)
      ∧ (isIdle (handleStreamMessage { isTaskRunning := true, currentTaskId := some "t1",
                                       streamOpen := true } errorEv)
        ∧ (handleStreamMessage { isTaskRunning := true, currentTaskId := some "t1",
                                 streamOpen := true } errorEv).streamOpen = false)
      ∧ (isIdle (handleStreamError { isTaskRunning := true, currentTaskId := some "t1",
                                     streamOpen := true })
        ∧ (handleStreamError { isTaskRunning := true, currentTaskId := some "t1",
                               streamOpen := true }).streamOpen = false) :=
  terminal_events_reach_idle
    { isTaskRunning := true, currentTaskId := some "t1", streamOpen := true }
    finishEv errorEv (Or.inl rfl) rfl rfl

/-! ## Claim C7 -/

/-- Claim C7: `stopTask` while a task is running (task id known, no stop in
progress) issues the stop request and transitions to `stopping`, but does not
clear the Event Store, does not touch the reconciliation state, and does not
transition to idle; and if the stop request itself fails, `isStopping`
reverts while the task keeps running. -/
theorem stopTask_is_advisory (st : AppState) (tid m : String)
    (hct : st.currentTaskId = some tid) (hstop : st.isStopping = false)
    (hrun : st.isTaskRunning = true) :
    (stopTaskPending st).2 = true
      ∧ (stopTaskPending st).1.isStopping = true
      ∧ (stopTaskPending st).1.isTaskRunning = true
      ∧ (stopTaskPending st).1.rawEvents = st.rawEvents
      ∧ (stopTaskPending st).1.recon = st.recon
      ∧ (stopTaskPending st).1.currentTaskId = some tid
      ∧ (stopTaskResume (stopTaskPending st).1 (.ok ())).isStopping = true
      ∧ (stopTaskResume (stopTaskPending st).1 (.ok ())).isTaskRunning = true
      ∧ (stopTaskResume (stopTaskPending st).1 (.error m)).isStopping = false
      ∧ (stopTaskResume (stopTaskPending st).1 (.error m)).isTaskRunning = true := by
  simp [stopTaskPending, stopTaskResume, showStatus, hct, hstop, hrun]

/-- Witness for C7: a concrete running task with a concrete failing stop. -/
theorem stopTask_is_advisory_witness :
    (stopTaskPending runningState).2 = true
      ∧ (stopTaskPending runningState).1.isStopping = true
      ∧ (stopTaskPending runningState).1.isTaskRunning = true
      ∧ (stopTaskPending runningState).1.rawEvents = runningState.rawEvents
      ∧ (stopTaskPending runningState).1.recon = runningState.recon
      ∧ (stopTaskPending runningState).1.currentTaskId = some "t1"
      ∧ (stopTaskResume (stopTaskPending runningState).1 (.ok ())).isStopping = true
      ∧ (stopTaskResume (stopTaskPending runningState).1 (.ok ())).isTaskRunning = true
      ∧ (stopTaskResume (stopTaskPending runningState).1 (.error "boom")).isStopping = false
      ∧ (stopTaskResume (stopTaskPending runningState).1 (.error "boom")).isTaskRunning = true :=
  stopTask_is_advisory runningState "t1" "boom" rfl rfl rfl

/-! ## Claim C8 -/

/-- Claim C8: a `createSession` whose external creation request fails first
sits in `CREATING_SESSION` during the request, then transitions back to
`NO_SESSION`, retains no session id, and surfaces the failure reason as a
status toast (the failure is handled, not propagated). -/
theorem createSession_rolls_back (st : AppState) (msg : String)
    (hurl1 : strTrim st.repoUrl ≠ "")
    (hurl2 : strIncludes st.repoUrl "github.com" = true)
    (hsid : st.sessionId = none) :
    (createSessionPending st).sessionState = .CREATING_SESSION
      ∧ (createSessionResume (createSessionPending st) (.error msg)).sessionState = .NO_SESSION
      ∧ (createSessionResume (createSessionPending st) (.error msg)).sessionId = none
      ∧ (createSessionResume (createSessionPending st) (.error msg)).toast
          = some { message := "Session setup failed: " ++ msg, ttype := .error } := by
  simp [createSessionPending, createSessionResume, showStatus, hurl1, hurl2, hsid]

/-- Witness for C8: concrete fresh state with a valid GitHub URL whose
creation request fails. -/
theorem createSession_rolls_back_witness :
    (createSessionPending freshState).sessionState = .CREATING_SESSION
      ∧ (createSessionResume (createSessionPending freshState) (.error "repo not found")).sessionState
          = .NO_SESSION
      ∧ (createSessionResume (createSessionPending freshState) (.error "repo not found")).sessionId
          = none
      ∧ (createSessionResume (createSessionPending freshState) (.error "repo not found")).toast
          = some { message := "Session setup failed: " ++ "repo not found", ttype := .error } :=
  createSession_rolls_back freshState "repo not found" (by decide) (by decide) (by decide)

/-! ## Claim C10 -/

/-- Claim C10: after `startTask` has marked the run as running but before the
task-creation response assigned a task id (`currentTaskId` still `none`,
which holds whenever `startTask`'s preconditions held, since every path that
stops a run also nulls the task id), `stopTask` is a no-op: the state is
unchanged, no transition to `stopping`, and no external stop request is
issued. -/
theorem stopTask_noop_while_start_in_flight (st : AppState) (q sid : String)
    (hq : strTrim q ≠ "") (hsid : st.sessionId = some sid)
    (hrun : st.isTaskRunning = false) (hct : st.currentTaskId = none) :
    (startTaskPending st q).isTaskRunning = true
      ∧ (startTaskPending st q).currentTaskId = none
      ∧ stopTaskPending (startTaskPending st q) = (startTaskPending st q, false) := by
  refine ⟨?_, ?_, ?_⟩ <;>
    simp [startTaskPending, stopTaskPending, showStatus, hq, hsid, hrun, hct]

/-- Witness for C10: the in-flight no-op at a concrete state. -/
theorem stopTask_noop_while_start_in_flight_witness :
    (startTaskPending staleState "add docs").isTaskRunning = true
      ∧ (startTaskPending staleState "add docs").currentTaskId = none
      ∧ stopTaskPending (startTaskPending staleState "add docs")
          = (startTaskPending staleState "add docs", false) :=
  stopTask_noop_while_start_in_flight staleState "add docs" "s1"
    (by decide) (by decide) (by decide) (by decide)

end CodingAgent
